import Mathlib

/-!
Shallow embedding of the hybrid-search orchestration engine from
`src/lib/search.ts` and the `Home` server component (`src/app/page.tsx`).

Modelling conventions:
* JavaScript numbers occurring as relevance scores and prices are modelled
  as rationals (`ℚ`); all score decisions in the code use values whose
  comparisons are far from any double-rounding boundary.
* The relational store and the vector index are external collaborators: the
  store is represented by the ordered list of rows matching the current
  filter (the lexical predicate itself is a black box executed by
  PostgreSQL), and the vector index by a function from query text to the
  candidate list it returns.
* URL query-string serialisation (`URLSearchParams.toString` and the
  framework's parsing of `searchParams`) is the platform's and is a faithful
  inverse pair; hrefs are therefore modelled at the key/value-pair level.
-/

/-- Constant `PAGE_SIZE` from `search.ts`. -/
def PAGE_SIZE : Nat := 3

/-- Constant `ABSOLUTE_MIN = 0.5` from `search.ts` (exact rational). -/
def ABSOLUTE_MIN : ℚ := 1 / 2

/-- Constant `SCORE_DROP_TOLERANCE = 0.15` from `search.ts` (exact rational). -/
def SCORE_DROP_TOLERANCE : ℚ := 3 / 20

/-- Constant `RANK_INCREMENT = 0.1` from `search.ts` (exact rational). -/
def RANK_INCREMENT : ℚ := 1 / 10

/-- Untyped JSON-like values, as stored in the vector index's metadata. -/
inductive JsonVal where
  | str (s : String)
  | num (q : ℚ)
  | bool (b : Bool)
  | null
  | arr (elems : List JsonVal)
  | obj (fields : List (String × JsonVal))

/-- Property lookup on a JS object literal (first binding for a key wins;
real JS objects have unique keys). -/
def lookupField (fields : List (String × JsonVal)) (k : String) : Option JsonVal :=
  (fields.find? (fun kv => kv.1 == k)).map (fun kv => kv.2)

/-- Test `typeof o.k === "string"` for a looked-up property. -/
def isStrVal : Option JsonVal → Bool
  | some (JsonVal.str _) => true
  | _ => false

/-- Test `typeof o.k === "number"` for a looked-up property. -/
def isNumVal : Option JsonVal → Bool
  | some (JsonVal.num _) => true
  | _ => false

/-- The `Apartment` row shape from `src/lib/db/schema.ts`: `id`, `name`,
`imageId`, `price` are NOT NULL; `description` is nullable. -/
structure Apartment where
  id : String
  name : String
  imageId : String
  price : ℚ
  description : Option String
  deriving DecidableEq, Repr

/-- Row type `DbRow extends Apartment` from `search.ts`: a row plus the
`count(*) OVER()` window column `total`. -/
structure DbRow extends Apartment where
  total : Nat
  deriving DecidableEq, Repr

/-- One raw value of a Next.js `searchParams` record:
`string | string[] | undefined`. -/
inductive RawValue where
  | absent
  | str (s : String)
  | arr (xs : List String)
  deriving DecidableEq, Repr

/-- The raw parameter bag; `parseParams` only ever reads the keys
`query`, `page` and `semanticSearch`. -/
structure RawParams where
  query : RawValue
  page : RawValue
  semanticSearch : RawValue
  deriving DecidableEq, Repr

/-- Descriptor type `ParsedParams` from `search.ts`. -/
structure ParsedParams where
  q : Option String
  page : Nat
  semanticSearch : Bool
  deriving DecidableEq, Repr

/-- Leading- and trailing-whitespace removal on a character list. -/
def trimChars (l : List Char) : List Char :=
  ((l.dropWhile Char.isWhitespace).reverse.dropWhile Char.isWhitespace).reverse

/-- JavaScript `String.prototype.trim()`: strip leading and trailing
whitespace (structural model of the source's `.trim()` calls). -/
def jsTrim (s : String) : String := String.mk (trimChars s.data)

/-- The regex test `/^\d+$/` from `parseParams`: at least one character and
every character a decimal digit. -/
def isDigitString (s : String) : Bool :=
  !s.data.isEmpty && s.data.all Char.isDigit

/-- Value of `parseInt(rawPage, 10)` restricted to strings that already passed
`/^\d+$/`: standard base-10 positional value of the digit characters. -/
def decimalValue (s : String) : Nat :=
  s.data.foldl (fun n c => n * 10 + (c.toNat - 48)) 0

/-- The Normalizer `parseParams` from `search.ts` (lines 65-86), translated clause by
clause: first array element for array-valued `query`, trim, empty collapses
to `null`; `page` must match `^\d+$` and be `>= 1`, else defaults to 1;
`semanticSearch` is true iff the raw value is the string `"1"`. -/
def parseParams (raw : RawParams) : ParsedParams :=
  let rawQ : String :=
    match raw.query with
    | RawValue.str s => jsTrim s
    | RawValue.arr xs => jsTrim ((xs.head?).getD "")
    | RawValue.absent => ""
  let q : Option String := if rawQ.length > 0 then some rawQ else none
  let rawPage : String :=
    match raw.page with
    | RawValue.str s => s
    | _ => ""
  let parsedPage : Nat := if isDigitString rawPage then decimalValue rawPage else 1
  let page : Nat := if 1 ≤ parsedPage then parsedPage else 1
  let semanticSearch : Bool :=
    match raw.semanticSearch with
    | RawValue.str s => s == "1"
    | _ => false
  { q := q, page := page, semanticSearch := semanticSearch }

/-- The lexical fetch `fetchFromDb` from `search.ts` (lines 104-141).  The SQL collaborator is
modelled by `matching`: the ordered list of all rows matching the current
filter (store order).  `count(*) OVER()` is evaluated before `LIMIT/OFFSET`,
so every selected row carries `matching.length` in its `total` column; the
query then applies `OFFSET (page-1)*PAGE_SIZE` and `LIMIT PAGE_SIZE+1`.
`dbTotal` is `rows.length > 0 ? Number(rows[0].total) : 0`. -/
def fetchFromDb (matching : List Apartment) (page : Nat) : List DbRow × Nat :=
  let fetchLimit := PAGE_SIZE + 1
  let offset := (page - 1) * PAGE_SIZE
  let withTotals := matching.map (fun a => DbRow.mk a matching.length)
  let rows := (withTotals.drop offset).take fetchLimit
  let dbTotal := match rows.head? with
    | some r => r.total
    | none => 0
  (rows, dbTotal)

/-- Shape guard `isApartmentMetadata` from `search.ts` (lines 152-161): non-null object
whose `id`, `name`, `imageId` are strings and whose `price` is a number.
The `description` property is never inspected. -/
def isApartmentMetadata (val : JsonVal) : Bool :=
  match val with
  | JsonVal.obj fields =>
      isStrVal (lookupField fields "id") &&
      isStrVal (lookupField fields "name") &&
      isStrVal (lookupField fields "imageId") &&
      isNumVal (lookupField fields "price")
  | _ => false

/-- String content of a looked-up property, when it is a string. -/
def getStrField (fields : List (String × JsonVal)) (k : String) : Option String :=
  match lookupField fields k with
  | some (JsonVal.str s) => some s
  | _ => none

/-- Numeric content of a looked-up property, when it is a number. -/
def getNumField (fields : List (String × JsonVal)) (k : String) : Option ℚ :=
  match lookupField fields k with
  | some (JsonVal.num q) => some q
  | _ => none

/-- The `r.metadata as Apartment` cast from `search.ts` line 203.  Applied
only to values that already passed `isApartmentMetadata`, so the `getD`
defaults are never used there; a non-string `description` (never inspected
by the guard) degrades to `none` for this display-only field. -/
def apartmentOfMetadata (v : JsonVal) : Apartment :=
  match v with
  | JsonVal.obj fields =>
      { id := (getStrField fields "id").getD ""
        name := (getStrField fields "name").getD ""
        imageId := (getStrField fields "imageId").getD ""
        price := (getNumField fields "price").getD 0
        description := getStrField fields "description" }
  | _ => { id := "", name := "", imageId := "", price := 0, description := none }

/-- One record of the Upstash `index.query` response: the vector record's
own id (`String(r.id)`), its relevance `score`, and its untyped
`metadata`. -/
structure Candidate where
  id : String
  score : ℚ
  metadata : JsonVal

/-- The deduplication and shape-validation filter from `search.ts`
lines 187-189:
`res.filter(r => !existingIds.has(String(r.id)) && isApartmentMetadata(r.metadata))`. -/
def semanticValid (res : List Candidate) (existingIds : List String) : List Candidate :=
  res.filter (fun r => !(existingIds.contains r.id) && isApartmentMetadata r.metadata)

/-- The ranking filter `fetchSemanticFallback` from `search.ts` (lines 176-204).  The vector
index collaborator's response (at `topK = PAGE_SIZE`) is passed in as
`res`.  The model gives every candidate a score, so `valid[0].score ?? 0`
is `valid[0].score`. -/
def fetchSemanticFallback (res : List Candidate) (existingIds : List String) : List Apartment :=
  let valid := semanticValid res existingIds
  match valid with
  | [] => []
  | v0 :: _ =>
      let bestScore := v0.score
      let baseMin := max ABSOLUTE_MIN (bestScore - SCORE_DROP_TOLERANCE)
      ((valid.enum.filter
          (fun p => decide (min 1 (baseMin + (p.1 : ℚ) * RANK_INCREMENT) ≤ p.2.score))).map
        (fun p => apartmentOfMetadata p.2.metadata))

/-- Decimal digit character for `n % 10`. -/
def digitChar (n : Nat) : Char := Char.ofNat (48 + n % 10)

/-- Decimal printing of a natural number (the digits of `String(p)` in
JavaScript), accumulator style; structural recursion on a fuel argument
that always dominates the number of digits. -/
def natDecimalGo : Nat → Nat → List Char → List Char
  | 0, n, acc => digitChar n :: acc
  | fuel + 1, n, acc =>
      if n < 10 then digitChar n :: acc
      else natDecimalGo fuel (n / 10) (digitChar (n % 10) :: acc)

/-- Digit list of `String(n)`. -/
def natDecimal (n : Nat) : List Char := natDecimalGo n n []

/-- Rendering `String(n)` of a natural number. -/
def natDecimalStr (n : Nat) : String := String.mk (natDecimal n)

/-- The link builder `buildHref` from `search.ts` (lines 211-222), modelled at the level of
the `URLSearchParams` contents (key/value pairs, in `set` order); the
percent-encoding serialisation and its inverse are the platform's.  `q` is
emitted only when truthy (non-null and non-empty), `semanticSearch` only
when true, `page` only when `> 1`. -/
def buildHref (p : Nat) (q : Option String) (semanticSearch : Bool) : List (String × String) :=
  (match q with
   | some s => if s = "" then [] else [("query", s)]
   | none => []) ++
  (if semanticSearch then [("semanticSearch", "1")] else []) ++
  (if 1 < p then [("page", natDecimalStr p)] else [])

/-- All values carried by a key in a query string. -/
def valuesFor (pairs : List (String × String)) (k : String) : List String :=
  (pairs.filter (fun kv => kv.1 == k)).map (fun kv => kv.2)

/-- Next.js `searchParams` semantics for one key: absent when the key never
occurs, a plain string when it occurs once, an array when repeated. -/
def rawValueFor (pairs : List (String × String)) (k : String) : RawValue :=
  match valuesFor pairs k with
  | [] => RawValue.absent
  | [v] => RawValue.str v
  | vs => RawValue.arr vs

/-- The raw parameter bag the framework hands to `Home` after a navigation
to a query string with the given pairs. -/
def rawOfPairs (pairs : List (String × String)) : RawParams :=
  { query := rawValueFor pairs "query"
    page := rawValueFor pairs "page"
    semanticSearch := rawValueFor pairs "semanticSearch" }

/-- Observable outcome of one `Home` request (`src/app/page.tsx`).
`items`, `hasNext`, `total` mirror `SearchResult`; `rows`, `dbTotal`,
`semanticCalls` (the queries issued to the vector index) and
`semanticExtras` record the request's intermediates for verification. -/
structure HomeOutcome where
  rows : List DbRow
  dbTotal : Nat
  semanticCalls : List String
  semanticExtras : List Apartment
  items : List Apartment
  hasNext : Bool
  total : Nat

/-- The ternary gate of `src/app/page.tsx` lines 39-42:
`semanticSearch && q && rows.length < PAGE_SIZE` decides whether the
Semantic Fallback Client is invoked, and with which query text. -/
def semanticCallOf (p : ParsedParams) (rows : List DbRow) : Option String :=
  match p.q with
  | some qs => if p.semanticSearch && decide (rows.length < PAGE_SIZE) then some qs else none
  | none => none

/-- The `semanticExtras` value of `src/app/page.tsx` lines 39-42: the
fallback result when the gate fires (with `existingIds` the set of lexical
row ids), and `[]` otherwise. -/
def semanticExtrasOf (idx : String → List Candidate) (p : ParsedParams)
    (rows : List DbRow) : List Apartment :=
  match semanticCallOf p rows with
  | some qs => fetchSemanticFallback (idx qs) (rows.map (fun r => r.id))
  | none => []

/-- The `Home` orchestration from `src/app/page.tsx` (lines 29-51):
parse params, fetch the lexical page, gate the semantic fallback on
`semanticSearch && q && rows.length < PAGE_SIZE`, concatenate
`[...rows, ...semanticExtras]`, `hasNext = combined.length > PAGE_SIZE`,
`items = combined.slice(0, PAGE_SIZE)`,
`total = dbTotal + semanticExtras.length`.  The vector index collaborator
is `idx`; the store's match list for the current filter is `matching`. -/
def homeSearch (idx : String → List Candidate) (matching : List Apartment)
    (raw : RawParams) : HomeOutcome :=
  let p := parseParams raw
  let fetched := fetchFromDb matching p.page
  let rows := fetched.1
  let dbTotal := fetched.2
  let semanticExtras := semanticExtrasOf idx p rows
  let combined := rows.map (fun r => r.toApartment) ++ semanticExtras
  let hasNext := decide (PAGE_SIZE < combined.length)
  let items := combined.take PAGE_SIZE
  let total := dbTotal + semanticExtras.length
  { rows := rows, dbTotal := dbTotal, semanticCalls := (semanticCallOf p rows).toList
    semanticExtras := semanticExtras, items := items, hasNext := hasNext, total := total }

/-- The per-position survival threshold exactly as the claim's words state
it: `min(1, max(0.5, bestScore - 0.15) + 0.1 * i)`. -/
def specThreshold (bestScore : ℚ) (i : Nat) : ℚ :=
  min 1 (max (1 / 2) (bestScore - 3 / 20) + (1 / 10) * (i : ℚ))

/-- The claim's description of the surviving-candidate computation: keep
the remaining candidates (in received order) whose score reaches the
positional threshold relative to the first remaining candidate's score. -/
def specSurvivors (best : Candidate) (remaining : List Candidate) : List Apartment :=
  (remaining.enum.filter (fun p => decide (specThreshold best.score p.1 ≤ p.2.score))).map
    (fun p => apartmentOfMetadata p.2.metadata)

/-- Decimal value accumulated digit by digit, mirroring the recursion
pattern of `natDecimalGo`: `appendDecGo fuel m n` appends the decimal
digits of `n` after those already accumulated in `m`. -/
def appendDecGo : Nat → Nat → Nat → Nat
  | 0, m, n => m * 10 + n
  | fuel + 1, m, n =>
      if n < 10 then m * 10 + n
      else (appendDecGo fuel m (n / 10)) * 10 + n % 10

/-- Shape-valid apartment metadata object, without a `description`
property. -/
def mA (i nm im : String) (pr : ℚ) : JsonVal :=
  JsonVal.obj [("id", JsonVal.str i), ("name", JsonVal.str nm),
               ("imageId", JsonVal.str im), ("price", JsonVal.num pr)]

/-- First demo apartment row. -/
def apt1 : Apartment :=
  { id := "1", name := "A1", imageId := "i1", price := 100, description := none }

/-- Second demo apartment row. -/
def apt2 : Apartment :=
  { id := "2", name := "A2", imageId := "i2", price := 200, description := none }

/-- Third demo apartment row. -/
def apt3 : Apartment :=
  { id := "3", name := "A3", imageId := "i3", price := 300, description := none }

/-- Demo filter-match list with two rows (a partially filled page). -/
def exMatching : List Apartment := [apt1, apt2]

/-- Demo filter-match list with three rows (a full page). -/
def exMatching3 : List Apartment := [apt1, apt2, apt3]

/-- Demo raw request: query `"loft"`, no page, semantic toggle on. -/
def exRaw : RawParams :=
  { query := RawValue.str "loft", page := RawValue.absent
    semanticSearch := RawValue.str "1" }

/-- Demo vector candidate with fresh record id `v1` and metadata id `10`. -/
def candE1 : Candidate := { id := "v1", score := 9 / 10, metadata := mA "10" "E1" "j1" 310 }

/-- Demo vector candidate with fresh record id `v2` and metadata id `11`. -/
def candE2 : Candidate := { id := "v2", score := 9 / 10, metadata := mA "11" "E2" "j2" 320 }

/-- Demo vector candidate with fresh record id `v3` and metadata id `12`. -/
def candE3 : Candidate := { id := "v3", score := 19 / 20, metadata := mA "12" "E3" "j3" 330 }

/-- Demo vector index returning two accepted candidates. -/
def exIdx : String → List Candidate := fun _ => [candE1, candE2]

/-- Demo vector index returning three accepted candidates. -/
def c5Idx : String → List Candidate := fun _ => [candE1, candE2, candE3]

/-- Ranking-filter demo candidate at rank 0, score 0.9. -/
def c3c0 : Candidate := { id := "w0", score := 9 / 10, metadata := mA "t0" "T0" "k0" 400 }

/-- Ranking-filter demo candidate at rank 1, score 0.95. -/
def c3c1 : Candidate := { id := "w1", score := 19 / 20, metadata := mA "t1" "T1" "k1" 410 }

/-- Ranking-filter demo candidate at rank 2, score 0.85. -/
def c3c2 : Candidate := { id := "w2", score := 17 / 20, metadata := mA "t2" "T2" "k2" 420 }

/-- Ranking-filter demo candidate at rank 3, score 0.3. -/
def c3c3 : Candidate := { id := "w3", score := 3 / 10, metadata := mA "t3" "T3" "k3" 430 }

/-- The claim's ranking-filter example: received scores
`[0.9, 0.95, 0.85, 0.3]`. -/
def c3Cands : List Candidate := [c3c0, c3c1, c3c2, c3c3]

/-- A candidate whose vector-record id (`v9`) is fresh but whose metadata
carries the id `1`, colliding with the first lexical row. -/
def c8Cand : Candidate := { id := "v9", score := 9 / 10, metadata := mA "1" "Dup" "i9" 900 }

/-- Vector index returning only the id-colliding candidate `c8Cand`. -/
def c8Idx : String → List Candidate := fun _ => [c8Cand]

/-- A store-coherent candidate: its record id equals its metadata id. -/
def cohCand : Candidate := { id := "5", score := 9 / 10, metadata := mA "5" "C5" "i5" 500 }

/-- Vector index returning only the coherent candidate `cohCand`. -/
def cohIdx : String → List Candidate := fun _ => [cohCand]

/-- Shape-valid metadata whose `description` property is a number, not a
string. -/
def c10meta : JsonVal :=
  JsonVal.obj [("id", JsonVal.str "20"), ("name", JsonVal.str "D"),
               ("imageId", JsonVal.str "k9"), ("price", JsonVal.num 150),
               ("description", JsonVal.num 7)]

/-- Candidate carrying `c10meta`. -/
def c10cand : Candidate := { id := "d1", score := 9 / 10, metadata := c10meta }

/-! ### Helper lemmas -/

theorem charOfNat_digit_toNat (k : Nat) (h : k < 10) :
    (Char.ofNat (48 + k)).toNat = 48 + k := by
  interval_cases k <;> decide

theorem charOfNat_digit_isDigit (k : Nat) (h : k < 10) :
    (Char.ofNat (48 + k)).isDigit = true := by
  interval_cases k <;> decide

theorem digitChar_toNat (n : Nat) : (digitChar n).toNat = 48 + n % 10 := by
  unfold digitChar
  exact charOfNat_digit_toNat _ (Nat.mod_lt _ (by omega))

theorem digitChar_isDigit (n : Nat) : (digitChar n).isDigit = true := by
  unfold digitChar
  exact charOfNat_digit_isDigit _ (Nat.mod_lt _ (by omega))

theorem appendDecGo_zero (fuel n : Nat) (h : n ≤ fuel) : appendDecGo fuel 0 n = n := by
  induction fuel generalizing n with
  | zero => simp [appendDecGo]
  | succ fuel ih =>
    unfold appendDecGo
    by_cases h10 : n < 10
    · simp [h10]
    · simp [h10]
      have hdiv : n / 10 ≤ fuel := by
        have := Nat.div_lt_self (by omega : 0 < n) (by omega : 1 < 10)
        omega
      rw [ih _ hdiv]
      omega

theorem foldl_natDecimalGo (fuel : Nat) :
    ∀ (n : Nat) (acc : List Char) (m : Nat), n ≤ fuel →
      (natDecimalGo fuel n acc).foldl (fun a c => a * 10 + (c.toNat - 48)) m =
        acc.foldl (fun a c => a * 10 + (c.toNat - 48)) (appendDecGo fuel m n) := by
  induction fuel with
  | zero =>
    intro n acc m h
    have hn : n = 0 := by omega
    subst hn
    simp [natDecimalGo, appendDecGo, List.foldl, digitChar_toNat]
  | succ fuel ih =>
    intro n acc m h
    unfold natDecimalGo appendDecGo
    by_cases h10 : n < 10
    · simp only [if_pos h10, List.foldl, digitChar_toNat]
      congr 1
      omega
    · simp only [if_neg h10]
      have hdiv : n / 10 ≤ fuel := by
        have := Nat.div_lt_self (by omega : 0 < n) (by omega : 1 < 10)
        omega
      rw [ih _ _ _ hdiv]
      simp only [List.foldl, digitChar_toNat]
      congr 1
      omega

theorem decimalValue_natDecimalStr (n : Nat) : decimalValue (natDecimalStr n) = n := by
  show (natDecimalGo n n []).foldl (fun a c => a * 10 + (c.toNat - 48)) 0 = n
  rw [foldl_natDecimalGo n n [] 0 (Nat.le_refl n)]
  simp only [List.foldl]
  exact appendDecGo_zero n n (Nat.le_refl n)

theorem natDecimalGo_all_digits (fuel : Nat) :
    ∀ (n : Nat) (acc : List Char), (∀ c ∈ acc, c.isDigit = true) →
      ∀ c ∈ natDecimalGo fuel n acc, c.isDigit = true := by
  induction fuel with
  | zero =>
    intro n acc hacc c hc
    simp only [natDecimalGo, List.mem_cons] at hc
    rcases hc with hc | hc
    · subst hc; exact digitChar_isDigit _
    · exact hacc _ hc
  | succ fuel ih =>
    intro n acc hacc c hc
    unfold natDecimalGo at hc
    by_cases h10 : n < 10
    · simp only [if_pos h10, List.mem_cons] at hc
      rcases hc with hc | hc
      · subst hc; exact digitChar_isDigit _
      · exact hacc _ hc
    · simp only [if_neg h10] at hc
      refine ih _ _ ?_ _ hc
      intro c' hc'
      simp only [List.mem_cons] at hc'
      rcases hc' with hc' | hc'
      · subst hc'; exact digitChar_isDigit _
      · exact hacc _ hc'

theorem natDecimalGo_ne_nil (fuel : Nat) :
    ∀ (n : Nat) (acc : List Char), natDecimalGo fuel n acc ≠ [] := by
  induction fuel with
  | zero => intro n acc; simp [natDecimalGo]
  | succ fuel ih =>
    intro n acc
    unfold natDecimalGo
    by_cases h10 : n < 10
    · simp [h10]
    · simp only [if_neg h10]
      exact ih _ _

theorem isDigitString_natDecimalStr (n : Nat) : isDigitString (natDecimalStr n) = true := by
  have hdata : (natDecimalStr n).data = natDecimalGo n n [] := rfl
  unfold isDigitString
  rw [hdata, Bool.and_eq_true]
  constructor
  · have hne := natDecimalGo_ne_nil n n []
    cases h : natDecimalGo n n [] with
    | nil => exact absurd h hne
    | cons c cs => rfl
  · rw [List.all_eq_true]
    intro c hc
    exact natDecimalGo_all_digits n n [] (by intro c' hc'; cases hc') c hc

theorem snd_mem_of_mem_enum {α : Type _} {x : Nat × α} {l : List α} (h : x ∈ l.enum) :
    x.2 ∈ l := by
  have hm := List.mem_map_of_mem Prod.snd h
  rwa [List.enum_map_snd] at hm

theorem length_pos_of_ne_empty {s : String} (h : s ≠ "") : 0 < s.length := by
  cases s with
  | mk data =>
    cases data with
    | nil => exact absurd rfl h
    | cons c cs => simp [String.length]

theorem contains_eq_false_iff (ids : List String) (a : String) :
    ids.contains a = false ↔ a ∉ ids := by
  simp [List.contains, List.elem_eq_mem]

/-! ### Claim C1 -/

/-- Claim C1 counterexample: with 2 lexical rows (full-filter total 2) and 2
accepted semantic extras, only 1 extra fits into the truncated `items`, yet
the code computes `total = dbTotal + semanticExtras.length = 4`, not
`dbTotal + 1 = 3` as the claim states. -/
theorem C1_counterexample :
    (homeSearch exIdx exMatching exRaw).dbTotal = 2 ∧
    (homeSearch exIdx exMatching exRaw).rows.length = 2 ∧
    (homeSearch exIdx exMatching exRaw).semanticExtras.length = 2 ∧
    (homeSearch exIdx exMatching exRaw).items.length = 3 ∧
    (homeSearch exIdx exMatching exRaw).total = 4 ∧
    (homeSearch exIdx exMatching exRaw).total ≠
      (homeSearch exIdx exMatching exRaw).dbTotal +
        ((homeSearch exIdx exMatching exRaw).items.length -
          (homeSearch exIdx exMatching exRaw).rows.length) := by
  with_unfolding_all decide

/-- Claim C1 (amended): for every request, `total` equals the lexical
`dbTotal` plus the number of ALL accepted semantic extras fetched for this
page — including any that fall beyond the page-size cutoff of `items`. -/
theorem C1_total_counts_all_accepted_extras (idx : String → List Candidate)
    (matching : List Apartment) (raw : RawParams) :
    (homeSearch idx matching raw).total =
      (homeSearch idx matching raw).dbTotal +
        (homeSearch idx matching raw).semanticExtras.length := rfl

/-! ### Claim C4 -/

/-- Claim C4: the final `items` are the first `PAGE_SIZE` elements of the
lexical rows followed by the filtered semantic extras (both orders
preserved, lexical first), `hasNext` holds iff the un-truncated
concatenation exceeds `PAGE_SIZE`; and in the 2-rows-plus-2-extras example
the page has 3 items with `hasNext = true`. -/
theorem C4_items_concat_truncate (idx : String → List Candidate)
    (matching : List Apartment) (raw : RawParams) :
    (homeSearch idx matching raw).items =
      ((homeSearch idx matching raw).rows.map (fun r => r.toApartment) ++
        (homeSearch idx matching raw).semanticExtras).take PAGE_SIZE ∧
    ((homeSearch idx matching raw).hasNext = true ↔
      PAGE_SIZE < (homeSearch idx matching raw).rows.length +
        (homeSearch idx matching raw).semanticExtras.length) ∧
    (homeSearch exIdx exMatching exRaw).items.length = 3 ∧
    (homeSearch exIdx exMatching exRaw).hasNext = true := by
  refine ⟨rfl, ?_, by with_unfolding_all decide, by with_unfolding_all decide⟩
  have h : (homeSearch idx matching raw).hasNext =
      decide (PAGE_SIZE <
        ((homeSearch idx matching raw).rows.map (fun r => r.toApartment) ++
          (homeSearch idx matching raw).semanticExtras).length) := rfl
  rw [h, decide_eq_true_iff, List.length_append, List.length_map]

/-! ### Claim C5 -/

/-- Claim C5 counterexample: with 2 lexical rows on the page
(shortfall `PAGE_SIZE - 2 = 1`) the ranking filter still returns 3
accepted semantic extras — it does not truncate to the page-size
shortfall. -/
theorem C5_counterexample :
    (homeSearch c5Idx exMatching exRaw).rows.length = 2 ∧
    (homeSearch c5Idx exMatching exRaw).semanticExtras.length = 3 ∧
    ¬((homeSearch c5Idx exMatching exRaw).semanticExtras.length ≤
        PAGE_SIZE - (homeSearch c5Idx exMatching exRaw).rows.length) := by
  with_unfolding_all decide

/-- Claim C5 (amended): the ranking filter returns the surviving
candidates' items in their original order — a subsequence of the received
candidates' metadata, hence never more items than candidates received —
but performs no truncation to the page-size shortfall (the orchestrator's
later `slice(0, PAGE_SIZE)` is the only cut). -/
theorem C5_amended_order_preserving_subsequence (res : List Candidate) (ex : List String) :
    List.Sublist (fetchSemanticFallback res ex)
      (res.map (fun c => apartmentOfMetadata c.metadata)) ∧
    (fetchSemanticFallback res ex).length ≤ res.length := by
  have hsub : List.Sublist (fetchSemanticFallback res ex)
      (res.map (fun c => apartmentOfMetadata c.metadata)) := by
    unfold fetchSemanticFallback
    cases hv : semanticValid res ex with
    | nil => exact List.nil_sublist _
    | cons v0 rest =>
      have h1 := (List.filter_sublist ((v0 :: rest).enum)
        (p := fun p => decide (min 1 (max ABSOLUTE_MIN (v0.score - SCORE_DROP_TOLERANCE) +
          (p.1 : ℚ) * RANK_INCREMENT) ≤ p.2.score))).map
        (fun p => apartmentOfMetadata p.2.metadata)
      have h2 : ((v0 :: rest).enum.map (fun p => apartmentOfMetadata p.2.metadata)) =
          (v0 :: rest).map (fun c => apartmentOfMetadata c.metadata) := by
        have hcomp : (fun p : Nat × Candidate => apartmentOfMetadata p.2.metadata) =
            (fun c : Candidate => apartmentOfMetadata c.metadata) ∘ Prod.snd := rfl
        rw [hcomp, ← List.map_map, List.enum_map_snd]
      have h3 : List.Sublist ((v0 :: rest).map (fun c => apartmentOfMetadata c.metadata))
          (res.map (fun c => apartmentOfMetadata c.metadata)) := by
        rw [← hv]
        exact (List.filter_sublist res).map _
      rw [h2] at h1
      exact h1.trans h3
  refine ⟨hsub, ?_⟩
  have := hsub.length_le
  rwa [List.length_map] at this

/-! ### Claim C7 -/

/-- Claim C7 counterexample: one matching row, requested page 2: the page
is empty and the code returns `dbTotal = 0`, not the full match count 1 —
the claim fails when the requested page contains no rows. -/
theorem C7_counterexample :
    fetchFromDb [apt1] 2 = ([], 0) ∧
    [apt1].length = 1 ∧
    (fetchFromDb [apt1] 2).2 ≠ [apt1].length := by
  decide

/-- Claim C7 (amended): the lexical fetch's total equals the full match
count for the current filter whenever the requested page contains at least
one row; when the page is empty the total is 0. -/
theorem C7_amended_total (matching : List Apartment) (page : Nat) :
    ((fetchFromDb matching page).1 ≠ [] →
      (fetchFromDb matching page).2 = matching.length) ∧
    ((fetchFromDb matching page).1 = [] → (fetchFromDb matching page).2 = 0) := by
  have hd : (fetchFromDb matching page).2 =
      (match (fetchFromDb matching page).1.head? with
        | some r => r.total
        | none => 0) := rfl
  constructor
  · intro hne
    cases hr : (fetchFromDb matching page).1 with
    | nil => exact absurd hr hne
    | cons r rs =>
      have hmem : r ∈ (fetchFromDb matching page).1 := by
        rw [hr]; exact List.mem_cons_self r rs
      have hsub : r ∈ matching.map (fun a => DbRow.mk a matching.length) := by
        have h1 : r ∈ ((matching.map (fun a => DbRow.mk a matching.length)).drop
            ((page - 1) * PAGE_SIZE)) := List.take_subset _ _ hmem
        exact List.drop_subset _ _ h1
      rw [List.mem_map] at hsub
      obtain ⟨a, _, heq⟩ := hsub
      rw [hd, hr]
      simp only [List.head?]
      rw [← heq]
  · intro hnil
    rw [hd, hnil]
    rfl

/-- Characterization of the fallback gate: the Semantic Fallback Client is
handed query `qs` exactly when the toggle is on, the parsed text is `qs`,
and the lexical page has strictly fewer than `PAGE_SIZE` rows. -/
theorem semanticCallOf_some_iff (p : ParsedParams) (rows : List DbRow) (qs : String) :
    semanticCallOf p rows = some qs ↔
      (p.q = some qs ∧ p.semanticSearch = true ∧ rows.length < PAGE_SIZE) := by
  unfold semanticCallOf
  cases hq : p.q with
  | none => simp
  | some q0 =>
    by_cases hsem : p.semanticSearch <;> by_cases hlen : rows.length < PAGE_SIZE <;>
      simp [hsem, hlen]

/-! ### Claim C2 -/

/-- Claim C2: the Semantic Fallback Client is invoked (one call, with the
parsed query text) iff the semantic flag is on, the text is present, and
the lexical fetch returned strictly fewer than `PAGE_SIZE` rows; with a
full lexical page it is never invoked and the extras are empty. -/
theorem C2_fallback_gate (idx : String → List Candidate) (matching : List Apartment)
    (raw : RawParams) :
    ((homeSearch idx matching raw).semanticCalls ≠ [] ↔
      ((parseParams raw).semanticSearch = true ∧ (parseParams raw).q ≠ none ∧
        (homeSearch idx matching raw).rows.length < PAGE_SIZE)) ∧
    (PAGE_SIZE ≤ (homeSearch idx matching raw).rows.length →
      (homeSearch idx matching raw).semanticCalls = [] ∧
      (homeSearch idx matching raw).semanticExtras = []) ∧
    (∀ qs, (parseParams raw).q = some qs → (parseParams raw).semanticSearch = true →
      (homeSearch idx matching raw).rows.length < PAGE_SIZE →
      (homeSearch idx matching raw).semanticCalls = [qs] ∧
      (homeSearch idx matching raw).semanticExtras =
        fetchSemanticFallback (idx qs)
          ((homeSearch idx matching raw).rows.map (fun r => r.id))) := by
  have hcalls : (homeSearch idx matching raw).semanticCalls =
      (semanticCallOf (parseParams raw)
        (fetchFromDb matching (parseParams raw).page).1).toList := rfl
  have hrows : (homeSearch idx matching raw).rows =
      (fetchFromDb matching (parseParams raw).page).1 := rfl
  have hextras : (homeSearch idx matching raw).semanticExtras =
      semanticExtrasOf idx (parseParams raw)
        (fetchFromDb matching (parseParams raw).page).1 := rfl
  refine ⟨?_, ?_, ?_⟩
  · rw [hcalls, hrows]
    cases hc : semanticCallOf (parseParams raw)
        (fetchFromDb matching (parseParams raw).page).1 with
    | none =>
      simp only [Option.toList]
      constructor
      · intro h; exact absurd rfl h
      · rintro ⟨hsem, hqne, hlen⟩
        rcases ho : (parseParams raw).q with _ | q0
        · exact absurd ho hqne
        · have hm : semanticCallOf (parseParams raw)
              (fetchFromDb matching (parseParams raw).page).1 = some q0 :=
            (semanticCallOf_some_iff _ _ _).mpr ⟨ho, hsem, hlen⟩
          rw [hc] at hm
          cases hm
    | some qs =>
      have h2 := (semanticCallOf_some_iff _ _ qs).mp hc
      simp only [Option.toList]
      constructor
      · intro _
        refine ⟨h2.2.1, ?_, h2.2.2⟩
        rw [h2.1]
        simp
      · intro _
        simp
  · intro hge
    rw [hrows] at hge
    have hnone : semanticCallOf (parseParams raw)
        (fetchFromDb matching (parseParams raw).page).1 = none := by
      cases hc : semanticCallOf (parseParams raw)
          (fetchFromDb matching (parseParams raw).page).1 with
      | none => rfl
      | some qs =>
        have h2 := (semanticCallOf_some_iff _ _ qs).mp hc
        omega
    constructor
    · rw [hcalls, hnone]; rfl
    · rw [hextras]
      unfold semanticExtrasOf
      rw [hnone]
  · intro qs hq hsem hlen
    rw [hrows] at hlen
    have hc : semanticCallOf (parseParams raw)
        (fetchFromDb matching (parseParams raw).page).1 = some qs :=
      (semanticCallOf_some_iff _ _ _).mpr ⟨hq, hsem, hlen⟩
    constructor
    · rw [hcalls, hc]; rfl
    · rw [hextras]
      unfold semanticExtrasOf
      rw [hc]
      rfl

/-- Witness for C2: a full lexical page (3 rows) never calls the fallback
and yields no extras; the 2-row page with semantic toggle on and text
present does call it. -/
theorem C2_witness :
    ((homeSearch exIdx exMatching3 exRaw).semanticCalls = [] ∧
      (homeSearch exIdx exMatching3 exRaw).semanticExtras = []) ∧
    (homeSearch exIdx exMatching exRaw).semanticCalls ≠ [] := by
  refine ⟨(C2_fallback_gate exIdx exMatching3 exRaw).2.1 (by decide), ?_⟩
  exact ((C2_fallback_gate exIdx exMatching exRaw).1).mpr
    ⟨by decide, by decide, by decide⟩

/-- Witness for C4: instantiates the has-next equivalence at the demo
request with 2 lexical rows and 2 accepted extras. -/
theorem C4_witness : (homeSearch exIdx exMatching exRaw).hasNext = true :=
  ((C4_items_concat_truncate exIdx exMatching exRaw).2.1).mpr
    (by with_unfolding_all decide)

/-- Witness for C7 (amended): with one matching row and page 1 the page is
non-empty and the returned total is the full match count. -/
theorem C7_amended_witness : (fetchFromDb [apt1] 1).2 = [apt1].length :=
  (C7_amended_total [apt1] 1).1 (by decide)

/-! ### Claim C3 -/

/-- Claim C3: after deduplication and shape-validation, a remaining
candidate at 0-based position `i` (received order, no re-sorting) survives
iff its score is at least `min(1, max(0.5, bestScore - 0.15) + 0.1 * i)`
with `bestScore` the first remaining candidate's score; on received scores
`[0.9, 0.95, 0.85, 0.3]` exactly the candidates at positions 0 and 1
survive. -/
theorem C3_positional_threshold :
    (∀ (res : List Candidate) (ex : List String) (v0 : Candidate) (rest : List Candidate),
      semanticValid res ex = v0 :: rest →
      fetchSemanticFallback res ex = specSurvivors v0 (v0 :: rest)) ∧
    fetchSemanticFallback c3Cands [] =
      [apartmentOfMetadata c3c0.metadata, apartmentOfMetadata c3c1.metadata] := by
  constructor
  · intro res ex v0 rest hv
    unfold fetchSemanticFallback
    rw [hv]
    unfold specSurvivors specThreshold ABSOLUTE_MIN SCORE_DROP_TOLERANCE RANK_INCREMENT
    simp only [mul_comm]
  · with_unfolding_all decide

/-- Witness for C3: instantiates the general equivalence on the concrete
score list `[0.9, 0.95, 0.85, 0.3]` (no candidate deduplicated or dropped
by the shape guard, so the remaining list is the received list). -/
theorem C3_witness :
    fetchSemanticFallback c3Cands [] = specSurvivors c3c0 [c3c0, c3c1, c3c2, c3c3] :=
  C3_positional_threshold.1 c3Cands [] c3c0 [c3c1, c3c2, c3c3] rfl

/-! ### Claim C6 -/

/-- Claim C6: feeding the query pairs produced by `buildHref` back through
the Normalizer reconstructs an equivalent descriptor — same text, same
semantic flag, and the same page for `page ≥ 1` — with page 1 omitted from
the href and any `page ≤ 1` round-tripping to page 1 (hence the `max p 1`).
Determinism of the output (byte-identical hrefs on identical inputs) is
definitional here, `buildHref` being a pure function of its arguments. -/
theorem C6_href_roundTrip (p : Nat) (q : Option String) (sem : Bool)
    (hq : ∀ s, q = some s → s ≠ "" ∧ jsTrim s = s) :
    parseParams (rawOfPairs (buildHref p q sem)) =
      { q := q, page := max p 1, semanticSearch := sem } := by
  have hds : isDigitString "" = false := rfl
  rcases q with _ | s
  · clear hq
    by_cases hp : 1 < p <;> cases sem <;>
      simp [buildHref, hp, rawOfPairs, rawValueFor, valuesFor, parseParams,
            isDigitString_natDecimalStr, decimalValue_natDecimalStr, hds, jsTrim, trimChars] <;>
      (try split_ifs) <;> omega
  · obtain ⟨hs, hts⟩ := hq s rfl
    have hslen : 0 < s.length := length_pos_of_ne_empty hs
    by_cases hp : 1 < p <;> cases sem <;>
      simp [buildHref, hp, hs, rawOfPairs, rawValueFor, valuesFor, parseParams,
            isDigitString_natDecimalStr, decimalValue_natDecimalStr, hds, hts, hslen] <;>
      (try split_ifs) <;> omega

/-- Witness for C6: a page-2 href with text `"beach"` and the toggle on
round-trips exactly; a page-1 href omits the page and still round-trips. -/
theorem C6_witness :
    parseParams (rawOfPairs (buildHref 2 (some "beach") true)) =
      { q := some "beach", page := 2, semanticSearch := true } ∧
    parseParams (rawOfPairs (buildHref 1 none false)) =
      { q := none, page := 1, semanticSearch := false } :=
  ⟨C6_href_roundTrip 2 (some "beach") true
      (fun s hs => by cases hs; exact ⟨by decide, by decide⟩),
    C6_href_roundTrip 1 none false (fun s hs => by cases hs)⟩

/-- Unpacking membership in the ranking filter's output: every returned
item is a cast of the metadata of a received candidate whose record id was
not among the existing ids. -/
theorem mem_fetchSemanticFallback {res : List Candidate} {ids : List String} {a : Apartment}
    (ha : a ∈ fetchSemanticFallback res ids) :
    ∃ c, c ∈ res ∧ ids.contains c.id = false ∧ a = apartmentOfMetadata c.metadata := by
  unfold fetchSemanticFallback at ha
  rcases hv : semanticValid res ids with _ | ⟨v0, rest⟩ <;> rw [hv] at ha
  · simp at ha
  · simp only [List.mem_map] at ha
    obtain ⟨pr, hpr, hpa⟩ := ha
    have hpe : pr ∈ (v0 :: rest).enum := List.mem_of_mem_filter hpr
    have hpv : pr.2 ∈ (v0 :: rest) := snd_mem_of_mem_enum hpe
    rw [← hv] at hpv
    unfold semanticValid at hpv
    rw [List.mem_filter] at hpv
    obtain ⟨hmem, hcond⟩ := hpv
    rw [Bool.and_eq_true] at hcond
    obtain ⟨hnc, _⟩ := hcond
    rw [Bool.not_eq_true'] at hnc
    exact ⟨pr.2, hmem, hnc, hpa.symm⟩

/-! ### Claim C8 -/

/-- Claim C8 counterexample: the dedup filter matches on the vector
RECORD id (`String(r.id)`), not on the surfaced metadata id.  A candidate
with fresh record id `v9` but metadata id `1` (already a lexical row id)
passes the filter, so the final `items` carry the identifier `1` twice —
once from the lexical row and once via the semantic candidate. -/
theorem C8_counterexample :
    (homeSearch c8Idx [apt1] exRaw).rows.map (fun r => r.id) = ["1"] ∧
    (homeSearch c8Idx [apt1] exRaw).semanticExtras.map (fun a => a.id) = ["1"] ∧
    (homeSearch c8Idx [apt1] exRaw).items.map (fun a => a.id) = ["1", "1"] := by
  with_unfolding_all decide

/-- Claim C8 (amended): the dedup is an exact match on the candidate's
vector-record identifier; whenever the vector store is coherent — each
candidate's metadata id equals its record id — no identifier of a lexical
row reappears in `items` via a semantic candidate.  (Without that
coherence assumption the claim fails, see the counterexample.) -/
theorem C8_amended_no_duplicate_ids (idx : String → List Candidate)
    (matching : List Apartment) (raw : RawParams)
    (hco : ∀ qs c, c ∈ idx qs → (apartmentOfMetadata c.metadata).id = c.id) :
    (∀ a ∈ (homeSearch idx matching raw).semanticExtras,
      a.id ∉ (homeSearch idx matching raw).rows.map (fun r => r.id)) ∧
    (∀ x ∈ (homeSearch idx matching raw).items,
      x.id ∈ (homeSearch idx matching raw).rows.map (fun r => r.id) →
      x ∈ (homeSearch idx matching raw).rows.map (fun r => r.toApartment)) := by
  have hrows : (homeSearch idx matching raw).rows =
      (fetchFromDb matching (parseParams raw).page).1 := rfl
  have hextras : (homeSearch idx matching raw).semanticExtras =
      semanticExtrasOf idx (parseParams raw)
        (fetchFromDb matching (parseParams raw).page).1 := rfl
  have key : ∀ a ∈ (homeSearch idx matching raw).semanticExtras,
      a.id ∉ (homeSearch idx matching raw).rows.map (fun r => r.id) := by
    intro a ha
    rw [hextras] at ha
    unfold semanticExtrasOf at ha
    cases hc : semanticCallOf (parseParams raw)
        (fetchFromDb matching (parseParams raw).page).1 with
    | none => rw [hc] at ha; simp at ha
    | some qs =>
      rw [hc] at ha
      have ha2 : a ∈ fetchSemanticFallback (idx qs)
          ((fetchFromDb matching (parseParams raw).page).1.map (fun r => r.id)) := ha
      obtain ⟨c, hcm, hnc, hae⟩ := mem_fetchSemanticFallback ha2
      rw [hrows, hae, hco qs c hcm]
      exact (contains_eq_false_iff _ _).mp hnc
  refine ⟨key, ?_⟩
  intro x hx hxid
  have hx2 : x ∈ ((homeSearch idx matching raw).rows.map (fun r => r.toApartment) ++
      (homeSearch idx matching raw).semanticExtras) := List.take_subset _ _ hx
  rw [List.mem_append] at hx2
  rcases hx2 with h | h
  · exact h
  · exact absurd hxid (key x h)

set_option maxRecDepth 4096 in
/-- Witness for C8 (amended): with a coherent index (record id `5` equals
metadata id `5`) the surfaced extra's id is not among the lexical row
ids. -/
theorem C8_amended_witness :
    (apartmentOfMetadata cohCand.metadata).id ∉
      ((homeSearch cohIdx exMatching exRaw).rows.map (fun r => r.id)) :=
  (C8_amended_no_duplicate_ids cohIdx exMatching exRaw
      (fun qs c hc => by
        simp only [cohIdx, List.mem_singleton] at hc
        subst hc
        rfl)).1
    (apartmentOfMetadata cohCand.metadata) (by with_unfolding_all decide)

/-! ### Claim C9 -/

/-- Claim C9: the Normalizer is total and permissive — it always yields a
descriptor with `page ≥ 1`; a raw page that is absent, array-valued, fails
`^\d+$`, or parses below 1 yields page 1; empty, whitespace-only, or
empty-array query text yields absent text; array-valued text takes the
first element, trimmed. -/
theorem C9_normalizer_total (raw : RawParams) :
    1 ≤ (parseParams raw).page ∧
    (∀ s, raw.page = RawValue.str s →
      ¬(isDigitString s = true ∧ 1 ≤ decimalValue s) → (parseParams raw).page = 1) ∧
    (raw.page = RawValue.absent → (parseParams raw).page = 1) ∧
    (∀ xs, raw.page = RawValue.arr xs → (parseParams raw).page = 1) ∧
    (∀ s, raw.query = RawValue.str s → jsTrim s = "" → (parseParams raw).q = none) ∧
    (raw.query = RawValue.absent → (parseParams raw).q = none) ∧
    (raw.query = RawValue.arr [] → (parseParams raw).q = none) ∧
    (∀ x xs, raw.query = RawValue.arr (x :: xs) →
      (parseParams raw).q = (if jsTrim x = "" then none else some (jsTrim x))) := by
  have hds : isDigitString "" = false := rfl
  refine ⟨?_, ?_, ?_, ?_, ?_, ?_, ?_, ?_⟩
  · simp only [parseParams]
    split_ifs <;> omega
  · intro s hs hbad
    by_cases hd : isDigitString s = true
    · have hz : decimalValue s = 0 := by
        rcases Nat.eq_zero_or_pos (decimalValue s) with h | h
        · exact h
        · exact absurd ⟨hd, h⟩ hbad
      simp [parseParams, hs, hd, hz]
    · simp [parseParams, hs, hd]
  · intro hs
    simp [parseParams, hs, hds]
  · intro xs hs
    simp [parseParams, hs, hds]
  · intro s hs ht
    simp [parseParams, hs, ht]
  · intro hs
    simp [parseParams, hs]
  · intro hs
    simp [parseParams, hs, jsTrim, trimChars]
  · intro x xs hs
    by_cases he : jsTrim x = ""
    · simp [parseParams, hs, he]
    · have hlen : 0 < (jsTrim x).length := length_pos_of_ne_empty he
      simp [parseParams, hs, he, hlen]

/-- Witness for C9: concrete malformed inputs are normalized, never
rejected — pages `"abc"`, `"0"` and an array page all yield page 1,
whitespace-only text is absent, and array text takes its first element
trimmed. -/
theorem C9_witness :
    (parseParams ⟨RawValue.absent, RawValue.str "abc", RawValue.absent⟩).page = 1 ∧
    (parseParams ⟨RawValue.absent, RawValue.str "0", RawValue.absent⟩).page = 1 ∧
    (parseParams ⟨RawValue.absent, RawValue.arr ["2"], RawValue.absent⟩).page = 1 ∧
    (parseParams ⟨RawValue.str "   ", RawValue.absent, RawValue.absent⟩).q = none ∧
    (parseParams ⟨RawValue.arr ["  hi  ", "z"], RawValue.absent, RawValue.str "1"⟩).q =
      some "hi" := by
  refine ⟨(C9_normalizer_total _).2.1 "abc" rfl (by decide),
          (C9_normalizer_total _).2.1 "0" rfl (by decide),
          (C9_normalizer_total _).2.2.2.1 ["2"] rfl,
          (C9_normalizer_total _).2.2.2.2.1 "   " rfl (by decide),
          ?_⟩
  have h := (C9_normalizer_total
    ⟨RawValue.arr ["  hi  ", "z"], RawValue.absent, RawValue.str "1"⟩).2.2.2.2.2.2.2
    "  hi  " ["z"] rfl
  rw [h]
  decide

/-! ### Claim C10 -/

/-- Claim C10: the shape guard accepts exactly the objects whose `id`,
`name`, `imageId` properties are strings and whose `price` property is a
number; every non-object value is rejected; the `description` property is
never inspected (prepending one, of any type, does not change the
verdict); and a shape-valid candidate with a numeric `description` — or
with no `description` at all — is accepted and surfaced as an item by the
ranking filter. -/
theorem C10_shape_guard :
    (∀ fields, isApartmentMetadata (JsonVal.obj fields) =
      (isStrVal (lookupField fields "id") && isStrVal (lookupField fields "name") &&
        isStrVal (lookupField fields "imageId") && isNumVal (lookupField fields "price"))) ∧
    isApartmentMetadata JsonVal.null = false ∧
    (∀ s, isApartmentMetadata (JsonVal.str s) = false) ∧
    (∀ q, isApartmentMetadata (JsonVal.num q) = false) ∧
    (∀ b, isApartmentMetadata (JsonVal.bool b) = false) ∧
    (∀ elems, isApartmentMetadata (JsonVal.arr elems) = false) ∧
    (∀ fields d, isApartmentMetadata (JsonVal.obj (("description", d) :: fields)) =
      isApartmentMetadata (JsonVal.obj fields)) ∧
    isApartmentMetadata c10meta = true ∧
    fetchSemanticFallback [c10cand] [] = [apartmentOfMetadata c10meta] ∧
    isApartmentMetadata (mA "20" "D" "k9" 150) = true := by
  refine ⟨fun fields => rfl, rfl, fun s => rfl, fun q => rfl, fun b => rfl,
    fun elems => rfl, fun fields d => rfl, rfl, ?_, rfl⟩
  with_unfolding_all decide
